import Mathlib

/-!
Verification of the state-synchronization and caching core of the
findYTmusic terminal application.

The development shallowly embeds the Python sources:
  * `models.py`   — the `SearchResult` and `AppState` dataclasses;
  * `services.py` — `DatabaseService` (SQLite `songs` table),
                    `Downloader`, and `MusicSearchService`;
  * `main.py`     — the `FindYTMusicApp` coordinator (search workers,
                    highlight events, library view).

The SQLite table is embedded as an insertion-ordered list of rows;
`INSERT OR IGNORE` under the `video_id TEXT PRIMARY KEY` and
`link TEXT UNIQUE` constraints becomes a conditional append.  A Python
`dict` (insertion-ordered, assignment to an existing key replaces the
value in place) is embedded as an association list.  External effects
(the remote ytmusicapi call, `shutil.which`, `subprocess.run`) are
passed in as explicit outcome values; raised exceptions in the body of
`MusicSearchService.search`, which the surrounding `try/except` turns
into an error result, are embedded with `Except String`.
-/

namespace FindYT

/-- `models.SearchResult` — one normalized catalog entry (all fields as
in the Python dataclass). -/
structure SearchResult where
  video_id : String
  title : String
  artist : String
  album_name : String
  duration : String
  link : String
  is_explicit : Bool
  deriving Repr, DecidableEq

/-- `models.AppState` — the whole application state: visible results and
the currently selected row. -/
structure AppState where
  results : List SearchResult := []
  selected_result : Option SearchResult := none
  deriving Repr, DecidableEq

/-! ## DatabaseService (services.py lines 12-57)

The `songs` table has `video_id TEXT PRIMARY KEY` and
`link TEXT UNIQUE NOT NULL`; `save_results` uses `INSERT OR IGNORE`, so a
row is dropped whenever its `video_id` *or* its `link` already occurs.
`executemany` binds the rows one after another, so a row earlier in the
same batch can already occupy a key for a later row.  The table is
embedded as the list of its rows in insertion order. -/

/-- One `INSERT OR IGNORE` of a single row: the insert is ignored when
the primary key `video_id` or the unique column `link` is already
present, otherwise the row is appended. -/
def insertOrIgnore (table : List SearchResult) (r : SearchResult) : List SearchResult :=
  if table.any (fun q => q.video_id = r.video_id || q.link = r.link) then table
  else table ++ [r]

/-- `DatabaseService.save_results` (services.py lines 35-46):
`executemany` of `INSERT OR IGNORE` over the batch, in batch order. -/
def save_results (table : List SearchResult) (results : List SearchResult) : List SearchResult :=
  results.foldl insertOrIgnore table

/-- The `ORDER BY artist, album_name, title` sort key, lexicographic with
SQLite's byte-wise text ordering (code-point order on these strings). -/
def rowKey (r : SearchResult) : Lex (String × Lex (String × String)) :=
  toLex (r.artist, toLex (r.album_name, r.title))

/-- Boolean comparison used to embed the SQL `ORDER BY`. -/
def rowLe (r q : SearchResult) : Bool := decide (rowKey r ≤ rowKey q)

/-- `DatabaseService.load_all_songs` (services.py lines 48-54):
`SELECT * FROM songs ORDER BY artist, album_name, title`.  SQLite
returns the rows sorted by the key; the embedding realizes the ordering
with a deterministic (stable) merge sort over the stored rows. -/
def load_all_songs (table : List SearchResult) : List SearchResult :=
  table.mergeSort rowLe

/-! ## Downloader (services.py lines 60-77)

`shutil.which` is an external lookup, passed in as a function; the
subprocess outcome is passed in as an explicit value, consumed only on
the available path. -/

/-- Outcome of `subprocess.run([command_path, url], check=True, ...)`:
normal exit, `CalledProcessError` (non-zero exit, carrying stderr), or
any other exception. -/
inductive SpawnOutcome where
  | success (stdout stderr : String)
  | calledProcessError (stderr : String)
  | otherError (msg : String)
  deriving Repr, DecidableEq

/-- `services.Downloader`: the configured command name and the path
`shutil.which` resolved at construction time. -/
structure Downloader where
  command_name : String
  command_path : Option String
  deriving Repr, DecidableEq

/-- `Downloader.__init__` (services.py lines 62-64): store the name and
resolve it once via the host lookup `which`. -/
def Downloader.construct (command : String) (which : String → Option String) : Downloader :=
  { command_name := command, command_path := which command }

/-- `Downloader.is_available` (services.py lines 66-68). -/
def Downloader.is_available (d : Downloader) : Bool := d.command_path.isSome

/-- `Downloader.run` (services.py lines 70-77).  When the command is
unavailable it returns the not-found failure before any process is
spawned; the `outcome` argument (the spawned process result) is consumed
only on the available path. -/
def Downloader.run (d : Downloader) (url : String) (title : String)
    (outcome : SpawnOutcome) : Bool × String :=
  if ¬ d.is_available then
    (false, "Command '" ++ d.command_name ++ "' not found.")
  else
    match outcome with
    | .success _ _ => (true, "Download successful for '" ++ title ++ "'.")
    | .calledProcessError stderr =>
        (false, "Download failed for '" ++ title ++ "'. Details:\n" ++ stderr)
    | .otherError msg =>
        (false, "An unexpected error occurred during the download of '" ++ title ++ "': " ++ msg)

/-! ## MusicSearchService (services.py lines 80-124)

A raw ytmusicapi item is a JSON-like dict.  The embedding keeps the
fields `_parse_item` reads, each with the shapes the Python code
distinguishes:
  * `videoId`  — absent (also covering the empty dict, for which
    `not item` is true) or present with a string value;
  * `title`    — `item.get("title", "N/A")`;
  * `artists`  — `item.get("artists", [])`, a list of artist dicts; an
    entry lacking the `"name"` key (embedded as `none`) makes
    `a["name"]` raise `KeyError`;
  * `album`    — `item.get("album")`: falsy (absent/None/empty dict,
    giving the `"Single"` default), a dict carrying `"name"`, or a
    truthy dict without `"name"`, for which `album["name"]` raises
    `KeyError`;
  * `duration_seconds` — `item.get("duration_seconds")`, absent or an
    integer (Python `divmod` on an `int` is floor division, `Int.ediv`
    `Int.emod` for the positive divisor 60);
  * `isExplicit` — `item.get("isExplicit", False)`.
A raised `KeyError` propagates out of `_parse_item` into the `except`
clause of `search`, embedded as `Except.error`. -/

/-- `item.get("album")` as `_parse_item` distinguishes it. -/
inductive RawAlbum where
  | falsy
  | named (name : String)
  | unnamed
  deriving Repr, DecidableEq

/-- One raw search item (the dict shapes read by `_parse_item`). -/
structure RawItem where
  videoId : Option String := none
  title : Option String := none
  artists : List (Option String) := []
  album : RawAlbum := .falsy
  duration_seconds : Option Int := none
  isExplicit : Option Bool := none
  deriving Repr, DecidableEq

/-- Python's `f"{n:02d}"`: zero-pad the decimal form to width two (a
sign counts toward the width, as in Python). -/
def pad2 (n : Int) : String :=
  let s := toString n
  if s.length < 2 then "0" ++ s else s

/-- The list comprehension `[a["name"] for a in item.get("artists", [])]`:
an entry without `"name"` raises `KeyError`. -/
def artistNames : List (Option String) → Except String (List String)
  | [] => .ok []
  | none :: _ => .error "KeyError: 'name'"
  | some n :: rest => (artistNames rest).map (fun ns => n :: ns)

/-- `MusicSearchService._parse_item` (services.py lines 104-124):
`Except.error` embeds an exception escaping to `search`'s handler,
`.ok none` the explicit `return None` for an item without `videoId`. -/
def _parse_item (item : RawItem) : Except String (Option SearchResult) :=
  match item.videoId with
  | none => .ok none
  | some vid =>
    let duration_formatted :=
      match item.duration_seconds with
      | none => "N/A"
      | some s => pad2 (s.ediv 60) ++ ":" ++ pad2 (s.emod 60)
    match artistNames item.artists with
    | .error e => .error e
    | .ok names =>
      match item.album with
      | .unnamed => .error "KeyError: 'name'"
      | album =>
        let joined := String.intercalate ", " names
        .ok (some
          { video_id := vid
            title := item.title.getD "N/A"
            artist := if joined = "" then "N/A" else joined
            album_name := match album with | .named n => n | _ => "Single"
            duration := duration_formatted
            link := "https://music.youtube.com/watch?v=" ++ vid
            is_explicit := item.isExplicit.getD false })

/-- Lookup in the association list embedding of a Python dict. -/
def assocLookup (v : String) : List (String × SearchResult) → Option SearchResult
  | [] => none
  | (k, r) :: rest => if k = v then some r else assocLookup v rest

/-- `unique_results[key] = value` on a Python dict: replace in place when
the key exists (keeping its original position), else append. -/
def dictInsert (d : List (String × SearchResult)) (k : String) (r : SearchResult) :
    List (String × SearchResult) :=
  if d.any (fun p => p.1 = k) then
    d.map (fun p => if p.1 = k then (k, r) else p)
  else d ++ [(k, r)]

/-- The `for item in search_items` loop of `search` (services.py lines
92-95): parse each item and keep it under its `video_id` when
`parsed_result and parsed_result.video_id` is truthy (parse returned a
record with a non-empty id); a raised exception aborts the loop. -/
def buildDict (d : List (String × SearchResult)) :
    List RawItem → Except String (List (String × SearchResult))
  | [] => .ok d
  | item :: rest =>
    match _parse_item item with
    | .error e => .error e
    | .ok none => buildDict d rest
    | .ok (some r) =>
        if r.video_id ≠ "" then buildDict (dictInsert d r.video_id r) rest
        else buildDict d rest

/-- The remote call `YTMusic().search(...)`: either a raw item list or a
raised exception (whose traceback text `search` reports). -/
def RemoteOutcome : Type := Except String (List RawItem)

/-- `MusicSearchService.search` (services.py lines 85-102) over a given
store.  Returns the `(records, error)` pair together with the store
after the call (`save_results` runs only when `results` is truthy, and
an exception anywhere in the `try` body leaves the store unchanged —
the `with self.conn` transaction would have rolled back).  The
`traceback.format_exc()` text is embedded by the exception's message. -/
def MusicSearchService.search (table : List SearchResult) (remote : RemoteOutcome) :
    (Option (List SearchResult) × Option String) × List SearchResult :=
  match remote with
  | .error tb => ((none, some tb), table)
  | .ok items =>
    match buildDict [] items with
    | .error tb => ((none, some tb), table)
    | .ok d =>
      let results := d.map Prod.snd
      if results.isEmpty then ((some results, none), table)
      else ((some results, none), save_results table results)

/-! ## FindYTMusicApp coordinator (main.py lines 18-122)

`on_search_controls_search_requested` cancels the `search_worker` group
and starts the new search exclusively, so at most one search is current;
a superseded worker's continuation after `await asyncio.to_thread(...)`
never runs.  The embedding gives every issued search a token (the count
of searches issued so far); a completion event carries the token of the
search it belongs to, and the coordinator applies it to the application
state only when that token is still the current one — the completion of
a superseded search is discarded.  The store write inside the service
happens on the worker thread regardless of cancellation, so it is
applied even for a discarded completion. -/

/-- Coordinator state: the reactive `app_state`, the store behind
`db_service`, and the token of the most recently issued search. -/
structure CoordState where
  appState : AppState := {}
  table : List SearchResult := []
  currentSearch : Nat := 0
  deriving Repr, DecidableEq

/-- The intents and completions the coordinator reacts to. -/
inductive Event where
  | searchRequested
  | searchCompleted (token : Nat) (remote : Except String (List RawItem))
  | rowHighlighted (key : Option String)
  | rowActivated (key : String)
  | viewLibrary
  deriving Repr

/-- The continuation of `perform_search` (main.py lines 98-110) after the
worker result `(results, error_details)` arrives: on a truthy error it
only logs and returns; otherwise it replaces the whole state with
`AppState(results=results, selected_result=None)`. -/
def applyCompletion (s : AppState) (out : Option (List SearchResult) × Option String) :
    AppState :=
  match out with
  | (_, some _) => s
  | (results, none) => { results := results.getD [], selected_result := none }

/-- One coordinator step (main.py handlers).  `searchRequested` issues a
fresh token (`cancel_group` + exclusive worker supersede any earlier
search).  `searchCompleted` runs the service on the worker (the store
write happens there) but applies the state transition only when its
token is still current.  `rowHighlighted` re-resolves the selection by
`video_id` in the current results.  `rowActivated` starts a download,
which never touches the application state.  `viewLibrary` reloads the
store (selection cleared by the `AppState` default). -/
def coordStep (s : CoordState) : Event → CoordState
  | .searchRequested => { s with currentSearch := s.currentSearch + 1 }
  | .searchCompleted token remote =>
    let out := MusicSearchService.search s.table remote
    { s with
      table := out.2
      appState := if token = s.currentSearch then applyCompletion s.appState out.1
                  else s.appState }
  | .rowHighlighted key =>
    let selected := key.bind (fun k => s.appState.results.find? (fun r => r.video_id = k))
    { s with appState := { results := s.appState.results, selected_result := selected } }
  | .rowActivated _ => s
  | .viewLibrary => { s with appState := { results := load_all_songs s.table } }

/-- A trace of events applied in order. -/
def coordRun (s : CoordState) (events : List Event) : CoordState :=
  events.foldl coordStep s

/-! ## Spec-side definitions

These follow the wording of the specification (not the code) and are
compared against the embedded code in the claim theorems. -/

/-- Spec wording for C7: the two-digit-padded decimal form of a number
(the claim's "two-digit-padded pair joined by a colon"). -/
def specPadded (n : Nat) : String :=
  if (toString n).length < 2 then "0" ++ toString n else toString n

/-- The canonical URL template of the spec ("`link`: derived
deterministically from `video_id`"); it is the template `_parse_item`
uses. -/
def canonicalLink (vid : String) : String :=
  "https://music.youtube.com/watch?v=" ++ vid

/-- A list of rows all of which carry the canonical link of their id —
true of every gateway-produced batch and hence of every store reachable
through them. -/
def WFLinks (rows : List SearchResult) : Prop :=
  ∀ r ∈ rows, r.link = canonicalLink r.video_id

instance (rows : List SearchResult) : Decidable (WFLinks rows) := by
  unfold WFLinks; infer_instance

/-- The ids of the rows of a store, in row order. -/
def storeIds (rows : List SearchResult) : List String :=
  rows.map (fun r => r.video_id)

/-- Spec wording for the amended C2: the number of distinct video ids in
a batch that are not among `seen` (the ids already stored). -/
def newIdCount (seen : List String) : List SearchResult → Nat
  | [] => 0
  | r :: rest =>
    if r.video_id ∈ seen then newIdCount seen rest
    else 1 + newIdCount (r.video_id :: seen) rest

/-- The record an item contributes to the result dict, if any: a parse
that returned a record with a truthy (non-empty) id. -/
def parsedKeep (item : RawItem) : Option SearchResult :=
  match _parse_item item with
  | .ok (some r) => if r.video_id = "" then none else some r
  | _ => none

/-- Spec wording for C3: the parsed record of the *last* item in
iteration order whose (kept) parse carries the id `v`. -/
def lastKeep : List RawItem → String → Option SearchResult
  | [], _ => none
  | item :: rest, v =>
    match lastKeep rest v with
    | some r => some r
    | none =>
      match parsedKeep item with
      | some r => if r.video_id = v then some r else none
      | none => none

/-! ## Concrete values used by counterexamples and witnesses -/

/-- A concrete row (id "a", link "la"). -/
def rowA : SearchResult :=
  { video_id := "a", title := "t1", artist := "x", album_name := "al"
    duration := "1:00", link := "la", is_explicit := false }

/-- A second concrete row with the same id "a" but different metadata
and a different link. -/
def rowA2 : SearchResult :=
  { video_id := "a", title := "t2", artist := "y", album_name := "al2"
    duration := "2:00", link := "lb", is_explicit := true }

/-- A concrete row carrying the canonical link of its id. -/
def rowCanon : SearchResult :=
  { video_id := "c1", title := "t", artist := "ar", album_name := "al"
    duration := "0:30", link := canonicalLink "c1", is_explicit := false }

/-- A concrete raw item that parses cleanly. -/
def goodItem : RawItem :=
  { videoId := some "g1", title := some "Good", artists := [some "Ann"]
    album := .named "Alb", duration_seconds := some 61, isExplicit := some false }

/-- The record `_parse_item` produces for `goodItem` (61 seconds format
as "01:01"). -/
def goodRec : SearchResult :=
  { video_id := "g1", title := "Good", artist := "Ann", album_name := "Alb"
    duration := "01:01", link := "https://music.youtube.com/watch?v=g1"
    is_explicit := false }

/-- A concrete raw item with an id but a truthy album dict lacking
`"name"` — `album["name"]` raises `KeyError` on it. -/
def badItem : RawItem :=
  { videoId := some "b1", album := .unnamed }

/-- A concrete raw item without an identifier. -/
def noIdItem : RawItem := {}

/-- Two concrete raw items sharing the id "dup" with different
metadata. -/
def dupItem1 : RawItem :=
  { videoId := some "dup", title := some "First", artists := [some "Ann"]
    album := .named "Alb", duration_seconds := some 61, isExplicit := some false }

/-- The later item with id "dup". -/
def dupItem2 : RawItem :=
  { videoId := some "dup", title := some "Second", artists := []
    album := .falsy, duration_seconds := none, isExplicit := some true }

/-- The record `_parse_item` produces for `dupItem2` (empty artist list
→ "N/A", falsy album → "Single", missing duration → "N/A"). -/
def dupRec2 : SearchResult :=
  { video_id := "dup", title := "Second", artist := "N/A", album_name := "Single"
    duration := "N/A", link := "https://music.youtube.com/watch?v=dup"
    is_explicit := true }

/-- The dict `buildDict` produces for `[dupItem1, dupItem2]`: one entry,
holding the later parse. -/
def buildDictWitness : List (String × SearchResult) := [("dup", dupRec2)]

/-! ## Claim theorems -/

/-- C1: a completion belonging to a superseded search is discarded and
never applied to the Application State; consequently, issuing search A
then search B, with A's completion arriving after B's, leaves the
Application State reflecting B's results (selection cleared), never
A's — whatever A's outcome. -/
theorem C1_stale_search_discard :
    (∀ (s : CoordState) (token : Nat) (remote : Except String (List RawItem)),
        token ≠ s.currentSearch →
        (coordStep s (.searchCompleted token remote)).appState = s.appState)
    ∧ (∀ (s : CoordState) (remA remB : Except String (List RawItem))
        (resB : List SearchResult),
        (MusicSearchService.search s.table remB).1 = (some resB, none) →
        (coordRun s [.searchRequested, .searchRequested,
            .searchCompleted (s.currentSearch + 2) remB,
            .searchCompleted (s.currentSearch + 1) remA]).appState
          = { results := resB, selected_result := none }) := by
  constructor
  · intro s token remote h
    simp [coordStep, h]
  · intro s remA remB resB hB
    have e1 : s.currentSearch + 2 = s.currentSearch + 1 + 1 := by omega
    have e2 : ¬ (s.currentSearch + 1 = s.currentSearch + 1 + 1) := by omega
    simp only [coordRun, List.foldl, coordStep, e1, if_pos, if_neg e2, hB,
      applyCompletion, Option.getD]

/-- Witness for C1: from the initial state, search A (token 1) then
search B (token 2); B's completion (one good item) arrives first, A's
error completion arrives late and is discarded. -/
theorem C1_stale_search_discard_witness :
    (coordRun {} [.searchRequested, .searchRequested,
        .searchCompleted 2 (.ok [goodItem]),
        .searchCompleted 1 (.error "late A")]).appState
      = { results := [goodRec], selected_result := none } :=
  C1_stale_search_discard.2 {} (.error "late A") (.ok [goodItem]) [goodRec] (by rfl)

/-- C4: every successful search completion (error component `none`)
installs a state with `selected_result = None`, whatever was selected
before; and from a state with no selection, every event other than a
row-highlight keeps the selection `None`. -/
theorem C4_selection_invalidation :
    (∀ (s : CoordState) (remote : Except String (List RawItem)),
        (MusicSearchService.search s.table remote).1.2 = none →
        (coordStep s (.searchCompleted s.currentSearch remote)).appState.selected_result
          = none)
    ∧ (∀ (s : CoordState) (e : Event),
        s.appState.selected_result = none →
        (∀ key, e ≠ .rowHighlighted key) →
        (coordStep s e).appState.selected_result = none) := by
  constructor
  · intro s remote h
    simp only [coordStep, if_pos rfl]
    rcases hout : (MusicSearchService.search s.table remote).1 with ⟨r, err⟩
    rw [hout] at h
    simp only at h
    subst h
    simp [applyCompletion]
  · intro s e h hne
    cases e with
    | searchRequested => simpa [coordStep] using h
    | searchCompleted token remote =>
        simp only [coordStep]
        by_cases ht : token = s.currentSearch
        · simp only [ht, if_pos rfl]
          rcases hout : (MusicSearchService.search s.table remote).1 with ⟨r, err⟩
          cases err with
          | none => simp [applyCompletion]
          | some tb => simpa [applyCompletion] using h
        · simpa [if_neg ht] using h
    | rowHighlighted key => exact absurd rfl (hne key)
    | rowActivated key => simpa [coordStep] using h
    | viewLibrary => simp [coordStep]

/-- Witness for C4: a state whose selection is `goodRec` receives a
successful completion that again contains a record with the same
`video_id`; the selection is cleared all the same.  A subsequent
search-request event keeps it cleared. -/
theorem C4_selection_invalidation_witness :
    (coordStep
        { appState := { results := [goodRec], selected_result := some goodRec }
          table := [], currentSearch := 0 }
        (.searchCompleted 0 (.ok [goodItem]))).appState.selected_result = none
    ∧ (coordStep
        { appState := { results := [goodRec], selected_result := none }
          table := [goodRec], currentSearch := 3 }
        .searchRequested).appState.selected_result = none :=
  ⟨C4_selection_invalidation.1
      { appState := { results := [goodRec], selected_result := some goodRec }
        table := [], currentSearch := 0 } (.ok [goodItem]) (by rfl),
   C4_selection_invalidation.2
      { appState := { results := [goodRec], selected_result := none }
        table := [goodRec], currentSearch := 3 }
      .searchRequested rfl (fun _ h => Event.noConfusion h)⟩

/-- C5: a transport/remote-service failure (a raised exception anywhere
in the `try` body) yields `records = None` and a populated error, with
the store untouched; in general exactly one of `records`/`error` is
populated; and the coordinator leaves the Application State unchanged on
every error completion. -/
theorem C5_remote_failure :
    (∀ (table : List SearchResult) (remote : Except String (List RawItem)),
        ((MusicSearchService.search table remote).1.1.isSome
          ↔ (MusicSearchService.search table remote).1.2 = none)
        ∧ (∀ tb, remote = .error tb →
            MusicSearchService.search table remote = ((none, some tb), table)))
    ∧ (∀ (s : CoordState) (token : Nat) (remote : Except String (List RawItem)),
        (MusicSearchService.search s.table remote).1.2.isSome →
        (coordStep s (.searchCompleted token remote)).appState = s.appState) := by
  constructor
  · intro table remote
    constructor
    · cases remote with
      | error tb => simp [MusicSearchService.search]
      | ok items =>
          cases hd : buildDict [] items with
          | error tb => simp [MusicSearchService.search, hd]
          | ok d =>
              by_cases he : (d.map Prod.snd).isEmpty <;>
                simp [MusicSearchService.search, hd, he]
    · intro tb h
      subst h
      simp [MusicSearchService.search]
  · intro s token remote h
    simp only [coordStep]
    rcases hout : (MusicSearchService.search s.table remote).1 with ⟨r, err⟩
    rw [hout] at h
    cases err with
    | none => simp at h
    | some tb => simp [applyCompletion]

/-- Witness for C5: a concrete failed remote call over a non-empty
store and a state with a live selection; the result pair carries only
the error and nothing changes. -/
theorem C5_remote_failure_witness :
    MusicSearchService.search [rowA] (.error "Traceback") = ((none, some "Traceback"), [rowA])
    ∧ (coordStep
        { appState := { results := [rowA], selected_result := some rowA }
          table := [rowA], currentSearch := 1 }
        (.searchCompleted 1 (.error "Traceback"))).appState
      = { results := [rowA], selected_result := some rowA } :=
  ⟨(C5_remote_failure.1 [rowA] (.error "Traceback")).2 "Traceback" rfl,
   C5_remote_failure.2
      { appState := { results := [rowA], selected_result := some rowA }
        table := [rowA], currentSearch := 1 }
      1 (.error "Traceback") (by rfl)⟩

/-- C9: a download invoker whose command name does not resolve has
`is_available = false`, and `run` returns the not-found failure naming
the configured command; the result does not depend on any process
outcome (no process is spawned). -/
theorem C9_missing_command (which : String → Option String)
    (cmd url title : String) (o o' : SpawnOutcome) (h : which cmd = none) :
    (Downloader.construct cmd which).is_available = false
    ∧ (Downloader.construct cmd which).run url title o
        = (false, "Command '" ++ cmd ++ "' not found.")
    ∧ (Downloader.construct cmd which).run url title o
        = (Downloader.construct cmd which).run url title o' := by
  simp [Downloader.construct, Downloader.is_available, Downloader.run, h]

/-- Witness for C9 at a concrete unresolvable command. -/
theorem C9_missing_command_witness :
    (Downloader.construct "gytmdl" (fun _ => none)).is_available = false
    ∧ (Downloader.construct "gytmdl" (fun _ => none)).run "u" "t" (.success "" "")
        = (false, "Command '" ++ "gytmdl" ++ "' not found.")
    ∧ (Downloader.construct "gytmdl" (fun _ => none)).run "u" "t" (.success "" "")
        = (Downloader.construct "gytmdl" (fun _ => none)).run "u" "t" (.otherError "boom") :=
  C9_missing_command (fun _ => none) "gytmdl" "u" "t" (.success "" "") (.otherError "boom") rfl

/-- C10: when the parsed, deduplicated record set is empty, `search`
returns the empty list (not `None`) with no error and writes nothing to
the store. -/
theorem C10_empty_result_no_write (table : List SearchResult) (items : List RawItem)
    (h : buildDict [] items = .ok []) :
    MusicSearchService.search table (.ok items) = ((some [], none), table) := by
  simp [MusicSearchService.search, h]

/-- Witness for C10: a response whose only item lacks an identifier,
over a non-empty store. -/
theorem C10_empty_result_no_write_witness :
    MusicSearchService.search [rowA] (.ok [noIdItem]) = ((some [], none), [rowA]) :=
  C10_empty_result_no_write [rowA] [noIdItem] rfl

/-- `rowLe` is transitive (it decides a linear order on the lex key). -/
theorem rowLe_trans : ∀ a b c, rowLe a b = true → rowLe b c = true → rowLe a c = true := by
  intro a b c hab hbc
  simp only [rowLe, decide_eq_true_eq] at hab hbc ⊢
  exact le_trans hab hbc

/-- `rowLe` is total. -/
theorem rowLe_total : ∀ a b, (rowLe a b || rowLe b a) = true := by
  intro a b
  simp only [rowLe, Bool.or_eq_true, decide_eq_true_eq]
  exact le_total _ _

/-- C8: `load_all_songs` returns the stored rows sorted ascending by
the `(artist, album_name, title)` lex key, is a permutation of the
store (every stored record appears), returns `[]` on the empty store,
and — being a function of the store alone — gives the identical list on
two calls with no intervening write. -/
theorem C8_load_all_sorted (table : List SearchResult) :
    List.Pairwise (fun r q => rowKey r ≤ rowKey q) (load_all_songs table)
    ∧ (load_all_songs table).Perm table
    ∧ load_all_songs [] = []
    ∧ load_all_songs table = load_all_songs table := by
  refine ⟨?_, ?_, ?_, rfl⟩
  · have h := List.sorted_mergeSort rowLe_trans rowLe_total table
    exact h.imp (fun hab => by simpa [rowLe, decide_eq_true_eq] using hab)
  · exact List.mergeSort_perm table rowLe
  · simp [load_all_songs]

/-- `canonicalLink` is injective. -/
theorem canonicalLink_inj {a b : String} (h : canonicalLink a = canonicalLink b) :
    a = b := by
  have hd := congrArg String.data h
  simp only [canonicalLink, String.data_append] at hd
  exact String.ext (List.append_cancel_left hd)

/-- A row whose id is already stored is ignored by `INSERT OR IGNORE`. -/
theorem insertOrIgnore_seen (table : List SearchResult) (r : SearchResult)
    (q : SearchResult) (hq : q ∈ table) (hid : q.video_id = r.video_id) :
    insertOrIgnore table r = table := by
  unfold insertOrIgnore
  rw [if_pos]
  rw [List.any_eq_true]
  exact ⟨q, hq, by simp [hid]⟩

/-- Over canonically-linked rows, a row with a fresh id is inserted
(its link cannot collide either). -/
theorem insertOrIgnore_fresh (table : List SearchResult) (r : SearchResult)
    (hWt : WFLinks table) (hrl : r.link = canonicalLink r.video_id)
    (hid : r.video_id ∉ storeIds table) :
    insertOrIgnore table r = table ++ [r] := by
  unfold insertOrIgnore
  rw [if_neg]
  intro hany
  rw [List.any_eq_true] at hany
  obtain ⟨q, hq, hcond⟩ := hany
  simp only [Bool.or_eq_true, decide_eq_true_eq] at hcond
  have hqid : q.video_id = r.video_id := by
    rcases hcond with h | h
    · exact h
    · exact canonicalLink_inj ((hWt q hq).symm.trans (h.trans hrl))
  exact hid (List.mem_map.mpr ⟨q, hq, hqid⟩)

/-- Unfolding of `newIdCount` on a seen head. -/
theorem newIdCount_cons_seen (seen : List String) (r : SearchResult)
    (rest : List SearchResult) (h : r.video_id ∈ seen) :
    newIdCount seen (r :: rest) = newIdCount seen rest := by
  simp only [newIdCount]
  rw [if_pos h]

/-- Unfolding of `newIdCount` on a fresh head. -/
theorem newIdCount_cons_fresh (seen : List String) (r : SearchResult)
    (rest : List SearchResult) (h : r.video_id ∉ seen) :
    newIdCount seen (r :: rest) = 1 + newIdCount (r.video_id :: seen) rest := by
  simp only [newIdCount]
  rw [if_neg h]

/-- `newIdCount` depends on `seen` only through membership. -/
theorem newIdCount_congr (l : List SearchResult) :
    ∀ seen seen' : List String, (∀ v, v ∈ seen ↔ v ∈ seen') →
    newIdCount seen l = newIdCount seen' l := by
  induction l with
  | nil => intro _ _ _; rfl
  | cons r rest ih =>
      intro seen seen' h
      by_cases hc : r.video_id ∈ seen
      · rw [newIdCount_cons_seen seen r rest hc,
          newIdCount_cons_seen seen' r rest ((h _).mp hc)]
        exact ih seen seen' h
      · rw [newIdCount_cons_fresh seen r rest hc,
          newIdCount_cons_fresh seen' r rest (fun hx => hc ((h _).mpr hx))]
        have hmem : ∀ v, v ∈ r.video_id :: seen ↔ v ∈ r.video_id :: seen' := by
          intro v; simp [h v]
        rw [ih _ _ hmem]

/-- Row-count effect of one `save_results` batch over canonically-linked
rows: exactly the distinct previously-unseen ids are inserted. -/
theorem save_results_length (batch : List SearchResult) :
    ∀ table, WFLinks table → WFLinks batch →
    (save_results table batch).length
      = table.length + newIdCount (storeIds table) batch := by
  induction batch with
  | nil => intro table _ _; simp [save_results, newIdCount]
  | cons r rest ih =>
      intro table hWt hWb
      have hWrest : WFLinks rest := fun q hq => hWb q (List.mem_cons_of_mem _ hq)
      have hrl : r.link = canonicalLink r.video_id := hWb r (List.mem_cons_self _ _)
      have hstep : save_results table (r :: rest)
          = save_results (insertOrIgnore table r) rest := rfl
      by_cases hc : r.video_id ∈ storeIds table
      · obtain ⟨q, hq, hqid⟩ := List.mem_map.mp hc
        rw [hstep, insertOrIgnore_seen table r q hq hqid, ih table hWt hWrest,
          newIdCount_cons_seen _ r rest hc]
      · rw [hstep, insertOrIgnore_fresh table r hWt hrl hc]
        have hWt' : WFLinks (table ++ [r]) := by
          intro q hq
          rcases List.mem_append.mp hq with h | h
          · exact hWt q h
          · rw [List.mem_singleton.mp h]; exact hrl
        rw [ih (table ++ [r]) hWt' hWrest]
        have hmem : ∀ v, v ∈ storeIds (table ++ [r]) ↔ v ∈ r.video_id :: storeIds table := by
          intro v
          simp [storeIds, List.mem_append, or_comm]
        rw [newIdCount_congr rest _ _ hmem, newIdCount_cons_fresh _ r rest hc]
        simp only [List.length_append, List.length_singleton]
        omega

/-- One batch preserves id-uniqueness of the store. -/
theorem nodup_save_results (batch : List SearchResult) :
    ∀ table, (storeIds table).Nodup → (storeIds (save_results table batch)).Nodup := by
  induction batch with
  | nil => intro table h; exact h
  | cons r rest ih =>
      intro table h
      have hstep : save_results table (r :: rest)
          = save_results (insertOrIgnore table r) rest := rfl
      rw [hstep]
      by_cases hc : table.any (fun q => q.video_id = r.video_id || q.link = r.link)
      · rw [show insertOrIgnore table r = table from by unfold insertOrIgnore; rw [if_pos hc]]
        exact ih table h
      · rw [show insertOrIgnore table r = table ++ [r] from by
          unfold insertOrIgnore; rw [if_neg (by simpa using hc)]]
        apply ih
        have hfresh : r.video_id ∉ storeIds table := by
          intro hmem
          obtain ⟨q, hq, hqid⟩ := List.mem_map.mp hmem
          apply hc
          rw [List.any_eq_true]
          exact ⟨q, hq, by simp [hqid]⟩
        simp only [storeIds, List.map_append]
        rw [List.nodup_append]
        refine ⟨h, List.nodup_singleton _, ?_⟩
        intro x hx hx2
        rw [List.map_singleton, List.mem_singleton] at hx2
        exact hfresh (hx2 ▸ hx)

/-- Replacing values stored under key `k` does not change lookups of a
different key. -/
theorem assocLookup_map_ne (v k : String) (r : SearchResult) (hvk : v ≠ k) :
    ∀ d, assocLookup v (d.map (fun p => if p.1 = k then (k, r) else p))
      = assocLookup v d := by
  intro d
  induction d with
  | nil => rfl
  | cons p rest ih =>
      obtain ⟨k1, r1⟩ := p
      simp only [List.map_cons]
      by_cases hk : k1 = k
      · rw [if_pos hk]
        simp only [assocLookup]
        have hne : ¬ k = v := fun h => hvk h.symm
        have hne1 : ¬ k1 = v := fun h => hvk (h ▸ hk)
        rw [if_neg hne, if_neg hne1]
        exact ih
      · rw [if_neg hk]
        simp only [assocLookup]
        by_cases hv : k1 = v
        · rw [if_pos hv, if_pos hv]
        · rw [if_neg hv, if_neg hv]
          exact ih

/-- Lookup after an in-place replacement of key `k`, when `k` occurs. -/
theorem assocLookup_map_insert (v k : String) (r : SearchResult) :
    ∀ d, d.any (fun p => p.1 = k) = true →
    assocLookup v (d.map (fun p => if p.1 = k then (k, r) else p))
      = if v = k then some r else assocLookup v d := by
  intro d
  induction d with
  | nil => intro h; exact Bool.noConfusion h
  | cons p rest ih =>
      intro h
      obtain ⟨k1, r1⟩ := p
      simp only [List.map_cons]
      by_cases hk : k1 = k
      · rw [if_pos hk]
        simp only [assocLookup]
        by_cases hv : v = k
        · rw [if_pos hv.symm, if_pos hv]
        · rw [if_neg (fun hh : k = v => hv hh.symm), if_neg hv]
          rw [assocLookup_map_ne v k r hv rest]
          have hne1 : ¬ k1 = v := fun hh => hv (hh ▸ hk)
          rw [if_neg hne1]
      · have hrest : rest.any (fun p => p.1 = k) = true := by
          simp only [List.any_cons, Bool.or_eq_true, decide_eq_true_eq] at h
          rcases h with h | h
          · exact absurd h hk
          · exact h
        rw [if_neg hk]
        simp only [assocLookup]
        by_cases hv : k1 = v
        · have hvk : ¬ v = k := fun hh => hk (hv.trans hh)
          rw [if_pos hv, if_neg hvk, if_pos hv]
        · rw [if_neg hv, ih hrest]
          by_cases hvk : v = k
          · rw [if_pos hvk, if_pos hvk]
          · rw [if_neg hvk, if_neg hvk, if_neg hv]

/-- Lookup after appending a fresh key. -/
theorem assocLookup_append_fresh (v k : String) (r : SearchResult) :
    ∀ d, d.any (fun p => p.1 = k) = false →
    assocLookup v (d ++ [(k, r)])
      = if v = k then some r else assocLookup v d := by
  intro d
  induction d with
  | nil =>
      intro _
      simp only [List.nil_append, assocLookup]
      by_cases hv : v = k
      · rw [if_pos hv.symm, if_pos hv]
      · rw [if_neg (fun hh : k = v => hv hh.symm), if_neg hv]
  | cons p rest ih =>
      intro h
      obtain ⟨k1, r1⟩ := p
      have hparts : ¬ k1 = k ∧ rest.any (fun p => p.1 = k) = false := by
        simp only [List.any_cons, Bool.or_eq_false_iff, decide_eq_false_iff_not] at h
        exact h
      simp only [List.cons_append, assocLookup, List.append_eq]
      by_cases hv : k1 = v
      · have hvk : ¬ v = k := fun hh => hparts.1 (hv.trans hh)
        rw [if_pos hv, if_neg hvk, if_pos hv]
      · rw [if_neg hv, ih hparts.2]
        by_cases hvk : v = k
        · rw [if_pos hvk, if_pos hvk]
        · rw [if_neg hvk, if_neg hvk, if_neg hv]

/-- Dict assignment: the inserted key now maps to the new value, other
keys are untouched. -/
theorem assocLookup_dictInsert (v k : String) (r : SearchResult)
    (d : List (String × SearchResult)) :
    assocLookup v (dictInsert d k r) = if v = k then some r else assocLookup v d := by
  unfold dictInsert
  by_cases h : d.any (fun p => p.1 = k)
  · rw [if_pos h]
    exact assocLookup_map_insert v k r d h
  · rw [if_neg h]
    refine assocLookup_append_fresh v k r d ?_
    cases hb : d.any (fun p => p.1 = k) with
    | false => rfl
    | true => exact absurd hb h

/-- An item whose kept parse is empty contributes nothing to
`lastKeep`. -/
theorem lastKeep_cons_none (item : RawItem) (rest : List RawItem) (v : String)
    (h : parsedKeep item = none) :
    lastKeep (item :: rest) v = lastKeep rest v := by
  cases hl : lastKeep rest v <;> simp [lastKeep, hl, h]

/-- An item whose kept parse is a record contributes it to `lastKeep`
when no later item does. -/
theorem lastKeep_cons_some (item : RawItem) (rest : List RawItem) (v : String)
    (r : SearchResult) (h : parsedKeep item = some r) :
    lastKeep (item :: rest) v
      = match lastKeep rest v with
        | some q => some q
        | none => if r.video_id = v then some r else none := by
  cases hl : lastKeep rest v <;> simp [lastKeep, hl, h]

/-- The final dict's lookup is the last kept parse of the consumed
items, falling back to the starting dict. -/
theorem buildDict_lookup (items : List RawItem) :
    ∀ d d', buildDict d items = .ok d' →
    ∀ v, assocLookup v d'
      = match lastKeep items v with
        | some r => some r
        | none => assocLookup v d := by
  induction items with
  | nil =>
      intro d d' h v
      simp only [buildDict, Except.ok.injEq] at h
      subst h
      simp [lastKeep]
  | cons item rest ih =>
      intro d d' h v
      simp only [buildDict] at h
      split at h
      next e heq => exact Except.noConfusion h
      next heq =>
        have hpk : parsedKeep item = none := by
          unfold parsedKeep; rw [heq]
        rw [ih d d' h v, lastKeep_cons_none item rest v hpk]
      next r heq =>
        by_cases hid : r.video_id = ""
        · rw [if_neg (fun hh : r.video_id ≠ "" => hh hid)] at h
          have hpk : parsedKeep item = none := by
            unfold parsedKeep; rw [heq]; simp [hid]
          rw [ih d d' h v, lastKeep_cons_none item rest v hpk]
        · rw [if_pos hid] at h
          have hpk : parsedKeep item = some r := by
            unfold parsedKeep; rw [heq]; simp [hid]
          rw [ih _ d' h v, lastKeep_cons_some item rest v r hpk]
          cases hl : lastKeep rest v with
          | some q => rfl
          | none =>
              simp only [assocLookup_dictInsert]
              by_cases hv : v = r.video_id
              · have hv2 : r.video_id = v := hv.symm
                rw [if_pos hv, if_pos hv2]
              · have hv2 : ¬ r.video_id = v := fun hh => hv hh.symm
                rw [if_neg hv, if_neg hv2]

/-- Invariant of the dicts `buildDict` produces: keys are unique and
each entry's value carries its key as `video_id`. -/
def KeysOk (d : List (String × SearchResult)) : Prop :=
  (d.map Prod.fst).Nodup ∧ ∀ p ∈ d, p.2.video_id = p.1

/-- `dictInsert` with a matching value preserves the invariant. -/
theorem dictInsert_keysOk (d : List (String × SearchResult)) (k : String)
    (r : SearchResult) (hk : r.video_id = k) (h : KeysOk d) :
    KeysOk (dictInsert d k r) := by
  obtain ⟨hnodup, hvals⟩ := h
  unfold dictInsert
  by_cases hc : d.any (fun p => p.1 = k)
  · rw [if_pos hc]
    constructor
    · have hkeys : (d.map (fun p => if p.1 = k then (k, r) else p)).map Prod.fst
          = d.map Prod.fst := by
        rw [List.map_map]
        apply List.map_congr_left
        intro p _
        by_cases hp : p.1 = k
        · simp [hp]
        · simp [hp]
      rw [hkeys]
      exact hnodup
    · intro p hp
      obtain ⟨q, hq, hfq⟩ := List.mem_map.mp hp
      by_cases hqk : q.1 = k
      · rw [if_pos hqk] at hfq
        rw [← hfq]
        exact hk
      · rw [if_neg hqk] at hfq
        rw [← hfq]
        exact hvals q hq
  · rw [if_neg hc]
    constructor
    · simp only [List.map_append, List.map_cons, List.map_nil]
      rw [List.nodup_append]
      refine ⟨hnodup, List.nodup_singleton _, ?_⟩
      intro x hx hx2
      rw [List.mem_singleton] at hx2
      subst hx2
      obtain ⟨q, hq, hqk⟩ := List.mem_map.mp hx
      exact hc (List.any_eq_true.mpr ⟨q, hq, decide_eq_true hqk⟩)
    · intro p hp
      rcases List.mem_append.mp hp with hmem | hmem
      · exact hvals p hmem
      · rw [List.mem_singleton.mp hmem]
        exact hk

/-- `buildDict` preserves the dict invariant. -/
theorem buildDict_keysOk (items : List RawItem) :
    ∀ d d', buildDict d items = .ok d' → KeysOk d → KeysOk d' := by
  induction items with
  | nil =>
      intro d d' h hok
      simp only [buildDict, Except.ok.injEq] at h
      subst h
      exact hok
  | cons item rest ih =>
      intro d d' h hok
      simp only [buildDict] at h
      split at h
      next e heq => exact Except.noConfusion h
      next heq => exact ih d d' h hok
      next r heq =>
        by_cases hid : r.video_id = ""
        · rw [if_neg (fun hh : r.video_id ≠ "" => hh hid)] at h
          exact ih d d' h hok
        · rw [if_pos hid] at h
          exact ih _ d' h (dictInsert_keysOk d r.video_id r rfl hok)

/-- Under the invariant, the values hold exactly one record with id `v`
iff the lookup succeeds. -/
theorem countP_values (v : String) :
    ∀ d, KeysOk d →
    (d.map Prod.snd).countP (fun r => r.video_id = v)
      = if (assocLookup v d).isSome then 1 else 0 := by
  intro d
  induction d with
  | nil => intro _; simp [assocLookup]
  | cons p rest ih =>
      intro h
      obtain ⟨k1, r1⟩ := p
      obtain ⟨hnodup, hvals⟩ := h
      have hkey : r1.video_id = k1 := hvals (k1, r1) (List.mem_cons_self _ _)
      have hnodup2 : (k1 :: rest.map Prod.fst).Nodup := by simpa using hnodup
      have hnodup' := List.nodup_cons.mp hnodup2
      have hrest : KeysOk rest :=
        ⟨hnodup'.2, fun q hq => hvals q (List.mem_cons_of_mem _ hq)⟩
      simp only [List.map_cons, List.countP_cons, assocLookup]
      by_cases hv : k1 = v
      · have hzero : (rest.map Prod.snd).countP (fun r => r.video_id = v) = 0 := by
          rw [List.countP_eq_zero]
          intro r hr
          obtain ⟨q, hq, rfl⟩ := List.mem_map.mp hr
          have hqk : q.2.video_id = q.1 := hrest.2 q hq
          simp only [decide_eq_true_eq]
          intro hqv
          exact hnodup'.1 (List.mem_map.mpr ⟨q, hq, by rw [← hqk, hqv, ← hv]⟩)
        rw [hzero]
        simp [hkey, hv]
      · rw [ih hrest]
        have hne : ¬ r1.video_id = v := fun hh => hv (hkey ▸ hh)
        simp [hne, hv]

/-- Under the value-id invariant, searching the values by id is the
assoc lookup. -/
theorem find?_values (v : String) :
    ∀ d, (∀ p ∈ d, p.2.video_id = p.1) →
    (d.map Prod.snd).find? (fun r => r.video_id = v) = assocLookup v d := by
  intro d
  induction d with
  | nil => intro _; rfl
  | cons p rest ih =>
      intro hvals
      obtain ⟨k1, r1⟩ := p
      have hkey : r1.video_id = k1 := hvals (k1, r1) (List.mem_cons_self _ _)
      have hrest : ∀ q ∈ rest, q.2.video_id = q.1 :=
        fun q hq => hvals q (List.mem_cons_of_mem _ hq)
      simp only [List.map_cons, assocLookup]
      by_cases hv : k1 = v
      · rw [List.find?_cons_of_pos _ (by simp [hkey, hv]), if_pos hv]
      · rw [List.find?_cons_of_neg _ (by simp [hkey, hv]), ih hrest, if_neg hv]

/-- If some item's kept parse has id `v`, the last one exists. -/
theorem lastKeep_isSome (v : String) :
    ∀ items : List RawItem,
    0 < items.countP (fun it => (parsedKeep it).any (fun r => r.video_id = v)) →
    (lastKeep items v).isSome = true := by
  intro items
  induction items with
  | nil => intro h; simp [List.countP_nil] at h
  | cons item rest ih =>
      intro h
      cases hl : lastKeep rest v with
      | some q => simp [lastKeep, hl]
      | none =>
          have hrest : rest.countP
              (fun it => (parsedKeep it).any (fun r => r.video_id = v)) = 0 := by
            by_contra hne
            have hs := ih (Nat.pos_of_ne_zero hne)
            rw [hl] at hs
            exact Bool.noConfusion hs
          rw [List.countP_cons, hrest] at h
          have hhead : (parsedKeep item).any (fun r => r.video_id = v) = true := by
            by_cases hh : (parsedKeep item).any (fun r => r.video_id = v) = true
            · exact hh
            · rw [if_neg hh] at h
              exact absurd h (by simp)
          cases hpk : parsedKeep item with
          | none => rw [hpk] at hhead; exact Bool.noConfusion hhead
          | some r =>
              rw [hpk] at hhead
              simp only [Option.any_some, decide_eq_true_eq] at hhead
              simp [lastKeep, hl, hpk, hhead]

/-- C3: when two or more items of one response share the id `v` (their
kept parses carry `video_id = v`), the returned dict holds exactly one
record with that id, and it is the parse of the last such item in
iteration order. -/
theorem C3_dedup_last_wins (items : List RawItem) (d : List (String × SearchResult))
    (v : String)
    (hbd : buildDict [] items = .ok d)
    (hcnt : 2 ≤ items.countP (fun it => (parsedKeep it).any (fun r => r.video_id = v))) :
    (d.map Prod.snd).countP (fun r => r.video_id = v) = 1
    ∧ (d.map Prod.snd).find? (fun r => r.video_id = v) = lastKeep items v := by
  have hlk : assocLookup v d = lastKeep items v := by
    have h := buildDict_lookup items [] d hbd v
    cases hl : lastKeep items v <;> rw [hl] at h <;> simpa [assocLookup] using h
  have hko : KeysOk d :=
    buildDict_keysOk items [] d hbd ⟨List.nodup_nil, by intro p hp; cases hp⟩
  have hsome : (lastKeep items v).isSome = true :=
    lastKeep_isSome v items (lt_of_lt_of_le (by norm_num) hcnt)
  constructor
  · rw [countP_values v d hko, hlk, if_pos hsome]
  · rw [find?_values v d hko.2, hlk]

/-- Witness for C3: two items share the id "dup"; the result holds one
record for it, the parse of the later item. -/
theorem C3_dedup_last_wins_witness :
    ((buildDictWitness.map Prod.snd).countP (fun r => r.video_id = "dup") = 1
    ∧ (buildDictWitness.map Prod.snd).find? (fun r => r.video_id = "dup")
        = lastKeep [dupItem1, dupItem2] "dup") :=
  C3_dedup_last_wins [dupItem1, dupItem2] buildDictWitness "dup" rfl (by decide)

/-- C2 as stated is refuted: a batch of two records both carrying the
previously-unseen id "a" has `k = 2` records and `j = 2` records whose
`video_id` is not previously stored, yet the row count grows by 1, not
2 (the second record is ignored against the first one of the same
batch). -/
theorem C2_count_counterexample :
    (save_results [] [rowA, rowA2]).length = 1
    ∧ (List.filter
        (fun r => !(([] : List SearchResult).any (fun q => q.video_id = r.video_id)))
        [rowA, rowA2]).length = 2
    ∧ (save_results [] [rowA, rowA2]).length
        ≠ ([] : List SearchResult).length
          + (List.filter
              (fun r => !(([] : List SearchResult).any (fun q => q.video_id = r.video_id)))
              [rowA, rowA2]).length := by
  refine ⟨rfl, rfl, ?_⟩
  decide

/-- C2 amended: the store never holds two rows with the same
`video_id` (for every sequence of batches from the empty store); and
over canonically-linked rows — as every gateway-produced batch and
every store reachable through them is — a batch increases the row count
by exactly the number of *distinct* batch ids not previously stored. -/
theorem C2_upsert_unique_and_count :
    (∀ batches : List (List SearchResult),
        (storeIds (batches.foldl save_results [])).Nodup)
    ∧ (∀ (table batch : List SearchResult), WFLinks table → WFLinks batch →
        (save_results table batch).length
          = table.length + newIdCount (storeIds table) batch) := by
  constructor
  · have haux : ∀ (batches : List (List SearchResult)) (table : List SearchResult),
        (storeIds table).Nodup → (storeIds (batches.foldl save_results table)).Nodup := by
      intro batches
      induction batches with
      | nil => intro table h; exact h
      | cons b rest ih =>
          intro table h
          exact ih (save_results table b) (nodup_save_results b table h)
    intro batches
    exact haux batches [] (by simp [storeIds])
  · intro table batch hWt hWb
    exact save_results_length batch table hWt hWb

/-- Padding an embedded natural with `pad2` is the spec's two-digit
padding. -/
theorem pad2_ofNat (n : Nat) : pad2 (Int.ofNat n) = specPadded n := rfl

/-- The code's `divmod`-and-pad on an embedded natural number of
seconds equals the spec's two-digit-padded `s / 60` and `s % 60` pair
(Python's `divmod` is floor division, `Nat` division here). -/
theorem pad2_div60 (n : Nat) :
    pad2 ((Int.ofNat n).ediv 60) ++ ":" ++ pad2 ((Int.ofNat n).emod 60)
      = specPadded ((Int.ofNat n).toNat / 60) ++ ":" ++ specPadded ((Int.ofNat n).toNat % 60) := by
  have h1 : (Int.ofNat n).ediv 60 = Int.ofNat (n / 60) := by
    show Int.ofNat n / Int.ofNat 60 = Int.ofNat (n / 60)
    exact (Int.ofNat_ediv n 60).symm
  have h2 : (Int.ofNat n).emod 60 = Int.ofNat (n % 60) := by
    show Int.ofNat n % Int.ofNat 60 = Int.ofNat (n % 60)
    exact (Int.ofNat_emod n 60).symm
  have h3 : (Int.ofNat n).toNat = n := rfl
  rw [h1, h2, h3, pad2_ofNat, pad2_ofNat]

/-- C7: for an item carrying an identifier, the parse policy of
`_parse_item` — duration in non-negative integer seconds becomes the
two-digit-padded `MM:SS` pair of `s / 60` and `s % 60`; a missing
duration becomes "N/A"; a missing (falsy) album becomes "Single"; a
missing/empty artist list becomes "N/A". -/
theorem C7_parse_field_policies (item : RawItem) (vid : String) (r : SearchResult)
    (hv : item.videoId = some vid)
    (hp : _parse_item item = .ok (some r)) :
    (∀ s : Int, 0 ≤ s → item.duration_seconds = some s →
        r.duration = specPadded (s.toNat / 60) ++ ":" ++ specPadded (s.toNat % 60))
    ∧ (item.duration_seconds = none → r.duration = "N/A")
    ∧ (item.album = .falsy → r.album_name = "Single")
    ∧ (item.artists = [] → r.artist = "N/A") := by
  unfold _parse_item at hp
  rw [hv] at hp
  simp only at hp
  cases han : artistNames item.artists with
  | error e => rw [han] at hp; exact Except.noConfusion hp
  | ok names =>
    rw [han] at hp
    cases halb : item.album with
    | unnamed => rw [halb] at hp; exact Except.noConfusion hp
    | falsy =>
      rw [halb] at hp
      simp only [Except.ok.injEq, Option.some.injEq] at hp
      subst hp
      refine ⟨?_, ?_, ?_, ?_⟩
      · intro s hs hds
        rw [hds]
        obtain ⟨n, rfl⟩ : ∃ n : Nat, s = Int.ofNat n :=
          ⟨s.toNat, (Int.toNat_of_nonneg hs).symm⟩
        exact pad2_div60 n
      · intro hds; rw [hds]
      · intro _; rfl
      · intro hart
        rw [hart] at han
        have hnames : names = [] := by
          have : Except.ok (ε := String) ([] : List String) = Except.ok names := han
          simpa using this.symm
        subst hnames
        rfl
    | named nm =>
      rw [halb] at hp
      simp only [Except.ok.injEq, Option.some.injEq] at hp
      subst hp
      refine ⟨?_, ?_, ?_, ?_⟩
      · intro s hs hds
        rw [hds]
        obtain ⟨n, rfl⟩ : ∃ n : Nat, s = Int.ofNat n :=
          ⟨s.toNat, (Int.toNat_of_nonneg hs).symm⟩
        exact pad2_div60 n
      · intro hds; rw [hds]
      · intro habs; exact RawAlbum.noConfusion habs
      · intro hart
        rw [hart] at han
        have hnames : names = [] := by
          have : Except.ok (ε := String) ([] : List String) = Except.ok names := han
          simpa using this.symm
        subst hnames
        rfl

/-- Witness for C7 at a concrete parsed item (61 seconds → "01:01"). -/
theorem C7_parse_field_policies_witness :
    goodRec.duration = specPadded ((61 : Int).toNat / 60) ++ ":" ++ specPadded ((61 : Int).toNat % 60) :=
  (C7_parse_field_policies goodItem "g1" goodRec rfl rfl).1 61 (by decide) rfl

/-- Witness for C2 amended: two singleton batches with the same id
leave a one-row store with unique ids; a canonical batch over the empty
store inserts its one fresh id. -/
theorem C2_upsert_unique_and_count_witness :
    (storeIds ([[rowA], [rowA2]].foldl save_results [])).Nodup
    ∧ (save_results [] [rowCanon]).length
        = ([] : List SearchResult).length + newIdCount (storeIds []) [rowCanon] :=
  ⟨C2_upsert_unique_and_count.1 [[rowA], [rowA2]],
   C2_upsert_unique_and_count.2 [] [rowCanon] (by decide) (by decide)⟩

/-- An item without an identifier is skipped by the parse loop. -/
theorem buildDict_skip_noid (noid : RawItem) (hnoid : noid.videoId = none) :
    ∀ (pre post : List RawItem) (d : List (String × SearchResult)),
    buildDict d (pre ++ noid :: post) = buildDict d (pre ++ post) := by
  have hparse : _parse_item noid = .ok none := by
    unfold _parse_item
    rw [hnoid]
  intro pre
  induction pre with
  | nil =>
      intro post d
      simp only [List.nil_append, buildDict, hparse]
  | cons p pre ih =>
      intro post d
      simp only [List.cons_append, buildDict]
      split
      · rfl
      · exact ih post d
      · next r heq =>
          by_cases hid : r.video_id = ""
          · rw [if_neg (fun hh : r.video_id ≠ "" => hh hid),
              if_neg (fun hh : r.video_id ≠ "" => hh hid)]
            exact ih post d
          · rw [if_pos hid, if_pos hid]
            exact ih post _

/-- A parse exception aborts the loop: the first erroring item's
exception is the loop's result when the items before it parse without
raising. -/
theorem buildDict_error_propagates (item : RawItem) (e : String)
    (hi : _parse_item item = .error e) :
    ∀ pre : List RawItem, (∀ it ∈ pre, ∀ msg, _parse_item it ≠ .error msg) →
    ∀ (post : List RawItem) (d : List (String × SearchResult)),
    buildDict d (pre ++ item :: post) = .error e := by
  intro pre
  induction pre with
  | nil =>
      intro _ post d
      simp only [List.nil_append, buildDict, hi]
  | cons p pre ih =>
      intro hp post d
      have hp1 : ∀ msg, _parse_item p ≠ .error msg :=
        hp p (List.mem_cons_self _ _)
      have hrest : ∀ it ∈ pre, ∀ msg, _parse_item it ≠ .error msg :=
        fun it hit => hp it (List.mem_cons_of_mem _ hit)
      simp only [List.cons_append, buildDict]
      split
      · next msg heq => exact absurd heq (hp1 msg)
      · exact ih hrest post d
      · next r heq =>
          by_cases hid : r.video_id = ""
          · rw [if_neg (fun hh : r.video_id ≠ "" => hh hid)]
            exact ih hrest post d
          · rw [if_pos hid]
            exact ih hrest post _

/-- C6 as stated is refuted: a response holding a well-formed item and
one malformed item that carries an identifier (its truthy album dict
lacks `"name"`, so `album["name"]` raises `KeyError`) is not recovered
by dropping the offending item — the whole search fails, an error is
surfaced, and the well-formed item's record is not returned. -/
theorem C6_malformed_item_counterexample :
    (MusicSearchService.search [] (.ok [goodItem, badItem])).1.1 = none
    ∧ (MusicSearchService.search [] (.ok [goodItem, badItem])).1.2.isSome = true := by
  constructor
  · rfl
  · rfl

/-- C6 amended: only the *identifier-less* malformation is recovered
locally — an item without `videoId` is silently dropped, the remaining
items are parsed as if it were absent and no error is surfaced; an item
that is malformed in any other recognized way (a raised exception during
its parse) aborts the whole search with a surfaced error and no store
write. -/
theorem C6_noid_dropped_other_malformed_aborts :
    (∀ (table : List SearchResult) (pre post : List RawItem) (noid : RawItem),
        noid.videoId = none →
        MusicSearchService.search table (.ok (pre ++ noid :: post))
          = MusicSearchService.search table (.ok (pre ++ post)))
    ∧ (∀ (table : List SearchResult) (pre post : List RawItem) (item : RawItem)
        (e : String),
        _parse_item item = .error e →
        (∀ it ∈ pre, ∀ msg, _parse_item it ≠ .error msg) →
        MusicSearchService.search table (.ok (pre ++ item :: post))
          = ((none, some e), table)) := by
  constructor
  · intro table pre post noid h
    simp only [MusicSearchService.search]
    rw [buildDict_skip_noid noid h pre post []]
  · intro table pre post item e hi hp
    simp only [MusicSearchService.search]
    rw [buildDict_error_propagates item e hi pre hp post []]

/-- Witness for C6 amended: dropping the identifier-less item between
two good items changes nothing; the malformed `badItem` after `goodItem`
aborts the search with the `KeyError` text. -/
theorem C6_noid_dropped_other_malformed_aborts_witness :
    MusicSearchService.search [rowA] (.ok [goodItem, noIdItem, dupItem2])
      = MusicSearchService.search [rowA] (.ok [goodItem, dupItem2])
    ∧ MusicSearchService.search [rowA] (.ok [goodItem, badItem])
      = ((none, some "KeyError: 'name'"), [rowA]) :=
  ⟨C6_noid_dropped_other_malformed_aborts.1 [rowA] [goodItem] [dupItem2] noIdItem rfl,
   C6_noid_dropped_other_malformed_aborts.2 [rowA] [goodItem] [] badItem
      "KeyError: 'name'" rfl
      (by
        intro it hit msg hcon
        rw [List.mem_singleton] at hit
        subst hit
        rw [show _parse_item goodItem = Except.ok (some goodRec) from rfl] at hcon
        exact Except.noConfusion hcon)⟩

end FindYT
